import Mathlib

/-!
Verification development for `readpdf.py`: a shallow embedding of the
field-extraction engine (pattern table, `re.search` semantics for the four
patterns in use, value cleanup) and of the batch aggregator, with theorems
settling the specification claims.

Strings are embedded as `List Char` (`Str`).  Python's `str.replace`,
`str.strip`, the `in` operator and `str.split(sep)[0]` are embedded as
executable functions with Python's semantics (ASCII whitespace suffices for
the domain alphabet; Python also strips some further Unicode whitespace,
which never occurs in the texts and tokens involved here).
-/

namespace ReadPdf

abbrev Str := List Char

/-- Coercion helper from Lean string literals to the embedded string type. -/
def str (s : String) : Str := s.data

/-- Python `str.isspace` characters in the ASCII range; this is also the set
matched by the regex class `\s` on the ASCII alphabet used in the program. -/
def isPySpace (c : Char) : Bool :=
  c = ' ' || c = '\t' || c = '\n' || c = '\r' || c = '\x0B' || c = '\x0C'

/-- Python `str.lower` (per-character lowering; ASCII-faithful). -/
def pyLower (s : Str) : Str := s.map Char.toLower

/-- Python `str.lstrip()`. -/
def pyLStrip (s : Str) : Str := s.dropWhile isPySpace

/-- Python `str.rstrip()`. -/
def pyRStrip (s : Str) : Str := (s.reverse.dropWhile isPySpace).reverse

/-- Python `str.strip()`. -/
def pyStrip (s : Str) : Str := pyRStrip (pyLStrip s)

/-- Python's substring test `sub in s`. -/
def pyIn (sub : Str) : Str → Bool
  | [] => sub.isEmpty
  | c :: s => sub.isPrefixOf (c :: s) || pyIn sub s

/-- Helper for `pyReplace`, structurally recursive on a fuel argument so that
it reduces in the kernel.  Every recursive call shortens the scanned list by
at least one character, so fuel equal to the list length always suffices and
the out-of-fuel branch is unreachable from `pyReplace`. -/
def pyReplaceFuel (old new : Str) : Nat → Str → Str
  | _, [] => []
  | 0, s => s
  | fuel + 1, c :: s =>
    if old.isPrefixOf (c :: s) then
      new ++ pyReplaceFuel old new fuel (s.drop (old.length - 1))
    else
      c :: pyReplaceFuel old new fuel s

/-- Python `s.replace(old, new)`: scan left to right, replacing each
(non-overlapping) occurrence of `old` and continuing after it.  Faithful for
nonempty `old`; the source only calls it with `old = "R$"`. -/
def pyReplace (old new s : Str) : Str := pyReplaceFuel old new s.length s

/-- Python `s.split(sep)[0]`: the prefix of `s` before the first occurrence
of `sep` (the whole string when `sep` does not occur).  Faithful for
nonempty `sep`; the source only calls it with `sep = "Base:"`. -/
def pyBeforeFirst (sep : Str) : Str → Str
  | [] => []
  | c :: s => if sep.isPrefixOf (c :: s) then [] else c :: pyBeforeFirst sep s

/-- The currency marker token `"R$"` (readpdf.py line 60). -/
def rsTok : Str := str "R$"

/-- The terminator token `"Base:"` (readpdf.py line 63). -/
def baseTok : Str := str "Base:"

/-- `clean_value` (readpdf.py lines 54-66): on a falsy (empty) value return
it unchanged; otherwise remove every `"R$"`, strip, and if `"Base:"` occurs,
keep only the (stripped) prefix before its first occurrence. -/
def clean_value (value : Str) : Str :=
  if value = [] then value
  else
    let v1 := pyStrip (pyReplace rsTok [] value)
    if pyIn baseTok v1 then pyStrip (pyBeforeFirst baseTok v1) else v1

/-!
## Regular-expression engine

A backtracking matcher faithful to CPython `re` on the constructs that
appear in the program's four patterns: literal characters, the classes
`\d`, `\s`, `.` (any character but newline), bracket classes (positive and
negated), greedy `*`/`+` and lazy `*?` over a single-character class,
ordered alternation, capturing groups and `$` (end of string, or just
before a trailing newline).  All patterns are compiled with `re.IGNORECASE`,
so literal characters compare case-folded.  `mtch` returns every way the
regex can match a prefix of the input, in backtracking preference order
(leftmost alternative first, greedy prefers longer, lazy prefers shorter);
`research` embeds `re.search`: the first listed outcome at the leftmost
position where some outcome exists.
-/

/-- An atom of a bracket class: `\d`, `\s`, or a literal character. -/
inductive ClsAtom where
  | digit
  | space
  | ch (c : Char)
deriving DecidableEq

/-- A single-character matcher: positive class, negated class, or `.`. -/
inductive CharCls where
  | pos (atoms : List ClsAtom)
  | neg (atoms : List ClsAtom)
  | dot
deriving DecidableEq

def matchAtom (a : ClsAtom) (c : Char) : Bool :=
  match a with
  | .digit => c.isDigit
  | .space => isPySpace c
  | .ch d => d.toLower == c.toLower

def matchCls (k : CharCls) (c : Char) : Bool :=
  match k with
  | .pos atoms => atoms.any (fun a => matchAtom a c)
  | .neg atoms => !(atoms.any (fun a => matchAtom a c))
  | .dot => c != '\n'

/-- Regex abstract syntax for the constructs used by the program. -/
inductive Regex where
  | eps
  | cls (k : CharCls)
  | cat (a b : Regex)
  | alt (a b : Regex)
  | starG (k : CharCls)
  | starL (k : CharCls)
  | plusG (k : CharCls)
  | grp (i : Nat) (r : Regex)
  | eol

/-- A literal string (each character case-insensitive, as under
`re.IGNORECASE`). -/
def rstr : Str → Regex
  | [] => .eps
  | c :: s => .cat (.cls (.pos [.ch c])) (rstr s)

/-- Capture-group assignments: group index paired with the captured text. -/
abbrev Caps := List (Nat × Str)

def setCap (i : Nat) (v : Str) (g : Caps) : Caps := (i, v) :: g

def getCap (i : Nat) (g : Caps) : Option Str :=
  (g.find? (fun e => e.1 == i)).map Prod.snd

/-- The remainders of `s` after consuming `0, 1, 2, …` characters of class
`k`, in that order, up to the maximal run of `k`-characters. -/
def clsTails (k : CharCls) : Str → List Str
  | [] => [[]]
  | c :: s => if matchCls k c then (c :: s) :: clsTails k s else [c :: s]

/-- All ways the regex can match a prefix of the input, in backtracking
preference order, each as (remaining suffix, captures). -/
def mtch : Regex → Str → Caps → List (Str × Caps)
  | .eps, s, g => [(s, g)]
  | .cls _, [], _ => []
  | .cls k, c :: s, g => if matchCls k c then [(s, g)] else []
  | .cat a b, s, g => (mtch a s g).flatMap (fun o => mtch b o.1 o.2)
  | .alt a b, s, g => mtch a s g ++ mtch b s g
  | .starG k, s, g => ((clsTails k s).reverse).map (fun t => (t, g))
  | .starL k, s, g => (clsTails k s).map (fun t => (t, g))
  | .plusG k, s, g => (((clsTails k s).drop 1).reverse).map (fun t => (t, g))
  | .grp i r, s, g =>
    (mtch r s g).map (fun o => (o.1, setCap i (s.take (s.length - o.1.length)) o.2))
  | .eol, s, g => if s = [] || s = ['\n'] then [(s, g)] else []

/-- `re.search`: try each start position left to right; at the first
position with a match, return the captures of the preferred outcome. -/
def research (r : Regex) : Str → Option Caps
  | [] =>
    match mtch r [] [] with
    | o :: _ => some o.2
    | [] => none
  | c :: s =>
    match mtch r (c :: s) [] with
    | o :: _ => some o.2
    | [] => research r s

/-- `len(match.groups())`: the number of capture groups in the pattern. -/
def countGroups : Regex → Nat
  | .cat a b => countGroups a + countGroups b
  | .alt a b => countGroups a + countGroups b
  | .grp _ r => countGroups r + 1
  | _ => 0

/-!
## The pattern table and `find_field_value` (readpdf.py lines 68-91)
-/

def valorKey : Str := str "Valor Base para Fins Rescisorios"
def nomeKey : Str := str "Nome"
def pisKey : Str := str "PIS/PASEP/NIT"

def spaceCls : CharCls := .pos [.space]

/-- The class `[:\s]` used as the label separator. -/
def sepCls : CharCls := .pos [.ch ':', .space]

/-- The class `[^\n]` (rest of the line). -/
def lineCls : CharCls := .neg [.ch '\n']

/-- `r"Valor Base para Fins :\s*(R\$\s*[\d\.,]+\s*.*?)(?:\s*Base:|$)"`. -/
def valorPattern : Regex :=
  .cat (rstr (str "Valor Base para Fins :"))
    (.cat (.starG spaceCls)
      (.cat
        (.grp 1
          (.cat (rstr (str "R$"))
            (.cat (.starG spaceCls)
              (.cat (.plusG (.pos [.digit, .ch '.', .ch ',']))
                (.cat (.starG spaceCls) (.starL .dot))))))
        (.alt (.cat (.starG spaceCls) (rstr (str "Base:"))) .eol)))

/-- `r"Nome[:\s]*([^\n]+)"`. -/
def nomePattern : Regex :=
  .cat (rstr (str "Nome")) (.cat (.starG sepCls) (.grp 1 (.plusG lineCls)))

/-- The two-group identifier pattern `(PIS/PASEP/NIT|PIS)` followed by
`[:\s]*` and a capture of one or more characters from the class of digits,
dot, dash and slash. -/
def pisPattern : Regex :=
  .cat (.grp 1 (.alt (rstr (str "PIS/PASEP/NIT")) (rstr (str "PIS"))))
    (.cat (.starG sepCls)
      (.grp 2 (.plusG (.pos [.digit, .ch '.', .ch '-', .ch '/']))))

/-- The generic fallback `f"{field_name}[:\s]*([^\n]+)"`.  The field name is
embedded as a literal; this is faithful exactly when the name contains no
regex metacharacters (when it does, CPython either fails to compile the
interpolated pattern or matches differently — see the claim on exception
freedom, settled through `fallbackPatternSrc` and `balancedParens` below). -/
def genericPattern (field_name : Str) : Regex :=
  .cat (rstr field_name) (.cat (.starG sepCls) (.grp 1 (.plusG lineCls)))

/-- `patterns.get(field_name, fallback)` (readpdf.py lines 72-79). -/
def patternFor (field_name : Str) : Regex :=
  if field_name = valorKey then valorPattern
  else if field_name = nomeKey then nomePattern
  else if field_name = pisKey then pisPattern
  else genericPattern field_name

/-- `find_field_value` (readpdf.py lines 68-91): look up the pattern, search
the text case-insensitively, return `None` on no match; for the two-group
identifier pattern return `match.group(2).strip()`, otherwise
`clean_value(match.group(1).strip())`. -/
def find_field_value (text field_name : Str) : Option Str :=
  let pattern := patternFor field_name
  match research pattern text with
  | none => none
  | some g =>
    if field_name = pisKey ∧ countGroups pattern > 1 then
      (getCap 2 g).map pyStrip
    else
      (getCap 1 g).map (fun v => clean_value (pyStrip v))

/-!
## Batch aggregator (readpdf.py lines 93-124)

A document is a pair of its filename and the outcome of reading it with
PyPDF2: `Except.ok t` models a successful read yielding text `t` (possibly
empty), `Except.error ()` models a raised exception.  The source folder is
`none` when `os.path.exists` fails, otherwise `some` of the directory
listing.  Logging is modelled as the emitted list of levelled messages; the
message texts keep the source's wording (path interpolation and the
exception text in the error message are elided, the filename is kept).
-/

inductive Level where
  | info
  | warning
  | error
  | debug
deriving DecidableEq

abbrev LogMsg := Level × Str

def readErrMsg (pdf_name : Str) : Str := str "Error al leer el archivo " ++ pdf_name

def srcMissingMsg : Str := str "La carpeta fuente no existe"

def noPdfMsg : Str := str "No se encontraron archivos PDF en la carpeta fuente"

def procMsg (pdf_name : Str) : Str := str "Procesando archivo: " ++ pdf_name

def campoMsg (field value : Str) : Str := str "Campo " ++ field ++ str ": " ++ value

/-- `extract_text_from_pdf` (readpdf.py lines 41-52): on a successful read
return the text; when PyPDF2 raises, log an error and return the empty
string. -/
def extract_text_from_pdf (pdf_name : Str) (raw : Except Unit Str) : Str × List LogMsg :=
  match raw with
  | .ok t => (t, [])
  | .error _ => ([], [(Level.error, readErrMsg pdf_name)])

/-- A record, as a Python dict: insertion-ordered association list. -/
abbrev Record := List (Str × Str)

/-- Python `record[k] = v`: overwrite in place, else append. -/
def dictSet (k v : Str) : Record → Record
  | [] => [(k, v)]
  | kv :: rec => if kv.1 = k then (k, v) :: rec else kv :: dictSet k v rec

def archivoKey : Str := str "Archivo"

/-- `value if value else 'No encontrado'` (readpdf.py line 119): the
NotFound sentinel `None` and the empty string are both falsy. -/
def noEncontrado : Str := str "No encontrado"

def renderValue : Option Str → Str
  | none => noEncontrado
  | some v => if v = [] then noEncontrado else v

/-- Lines 116-119: start from `{'Archivo': pdf_file}` and set each
configured field to its rendered value. -/
def buildRecord (text : Str) (fields : List Str) (pdf_name : Str) : Record :=
  fields.foldl (fun rec f => dictSet f (renderValue (find_field_value text f)) rec)
    [(archivoKey, pdf_name)]

/-- `f.lower().endswith('.pdf')` (readpdf.py line 103). -/
def isPdfName (pdf_name : Str) : Bool := (str ".pdf").isSuffixOf (pyLower pdf_name)

/-- The loop body of lines 108-122 for one document: log the progress
message, extract the text, skip the document when the text is empty,
otherwise build its record and log each field's resolved value. -/
def process_one (fields : List Str) (doc : Str × Except Unit Str) :
    List Record × List LogMsg :=
  let te := extract_text_from_pdf doc.1 doc.2
  let logs := (Level.info, procMsg doc.1) :: te.2
  if te.1 = [] then ([], logs)
  else
    ([buildRecord te.1 fields doc.1],
      logs ++ fields.map (fun f =>
        (Level.debug, campoMsg f (renderValue (find_field_value te.1 f)))))

/-- One iteration of the accumulation loop: append the records and log
messages produced for one document. -/
def processStep (fields : List Str) (acc : List Record × List LogMsg)
    (d : Str × Except Unit Str) : List Record × List LogMsg :=
  (acc.1 ++ (process_one fields d).1, acc.2 ++ (process_one fields d).2)

/-- `process_pdfs` (readpdf.py lines 93-124): error out on a missing source
folder, warn when no `.pdf` files are found, otherwise process the filtered
files in order, accumulating records and log messages. -/
def process_pdfs (source : Option (List (Str × Except Unit Str))) (fields : List Str) :
    List Record × List LogMsg :=
  match source with
  | none => ([], [(Level.error, srcMissingMsg)])
  | some docs =>
    let pdf_files := docs.filter (fun d => isPdfName d.1)
    if pdf_files.isEmpty then ([], [(Level.warning, noPdfMsg)])
    else pdf_files.foldl (processStep fields) ([], [])

/-!
## Result sink (readpdf.py lines 126-157)

`save_results_to_csv` returns `''` and writes nothing when the result list
is empty; otherwise it writes a header (the sorted union of all record
keys) and one row per record with every value passed through `clean_value`
again.  The embedding returns `none` for "no file written" and otherwise
the header together with the written rows; the timestamped filename and the
file I/O are elided.
-/

/-- Lexicographic comparison of strings by code point, as Python `sorted`
uses on `str`. -/
def lexLe : Str → Str → Bool
  | [], _ => true
  | _ :: _, [] => false
  | a :: x, b :: y => if a < b then true else if a = b then lexLe x y else false

def insSorted (s : Str) : List Str → List Str
  | [] => [s]
  | t :: ts => if lexLe s t then s :: t :: ts else t :: insSorted s ts

def sortStrs (l : List Str) : List Str := l.foldr insSorted []

/-- Line 150: `{k: clean_value(v) ...}` — every value of the record is a
string, so the `isinstance` guard always passes. -/
def cleanRecord (rec : Record) : Record := rec.map (fun kv => (kv.1, clean_value kv.2))

def save_results_to_csv (results : List Record) : Option (List Str × List Record) :=
  if results = [] then none
  else
    some (sortStrs ((results.flatMap (fun r => r.map Prod.fst)).dedup),
      results.map cleanRecord)

/-!
## The interpolated fallback pattern source (for the exception-freedom claim)

Line 79 builds the fallback pattern by string interpolation,
`f"{field_name}[:\s]*([^\n]+)"`, and hands it to `re.search` unescaped.
CPython's `re.compile` rejects, among others, every pattern whose
unescaped parentheses are unbalanced (`missing ), unterminated subpattern`).
`balancedParens` models that necessary condition of `re.compile`; none of
the pattern sources examined here contain escaped parentheses, so counting
every parenthesis is faithful for them.
-/

def fallbackPatternSrc (field_name : Str) : Str :=
  field_name ++ str "[:\\s]*([^\\n]+)"

def balancedParensFrom : Nat → Str → Bool
  | d, [] => d == 0
  | d, c :: s =>
    if c = '(' then balancedParensFrom (d + 1) s
    else if c = ')' then (if d == 0 then false else balancedParensFrom (d - 1) s)
    else balancedParensFrom d s

def balancedParens (s : Str) : Bool := balancedParensFrom 0 s

/-!
## Concrete inputs used in the claim instances
-/

instance {ε α : Type} [DecidableEq ε] [DecidableEq α] : DecidableEq (Except ε α) :=
  fun a b =>
    match a, b with
    | .ok x, .ok y =>
      if h : x = y then .isTrue (by rw [h]) else .isFalse (fun hc => h (Except.ok.inj hc))
    | .error x, .error y =>
      if h : x = y then .isTrue (by rw [h]) else .isFalse (fun hc => h (Except.error.inj hc))
    | .ok _, .error _ => .isFalse (fun hc => Except.noConfusion hc)
    | .error _, .ok _ => .isFalse (fun hc => Except.noConfusion hc)

/-- The currency-field example text from the specification. -/
def valorSubstring : Str := str "Valor Base para Fins : R$ 1.234,56 Base: R$ 1.000,00"

/-- A text containing `valorSubstring`, but with an earlier match of the
currency pattern in front of it. -/
def valorCxText : Str :=
  str "Valor Base para Fins : R$ 9 Base: x Valor Base para Fins : R$ 1.234,56 Base: R$ 1.000,00"

def pisVal : Str := str "170.83994.95-4"

def pisText1 : Str := str "PIS: 170.83994.95-4"

def pisText2 : Str := str "PIS/PASEP/NIT: 170.83994.95-4"

/-- A text containing the identifier value preceded by an accepted label
variant, but with an earlier match of the identifier pattern in front. -/
def pisCxText : Str := str "PIS: 999 PIS/PASEP/NIT: 170.83994.95-4"

/-- A three-document batch whose second document fails extraction. -/
def threeDocs : List (Str × Except Unit Str) :=
  [(str "a.pdf", Except.ok (str "Nome: Ana")),
   (str "b.pdf", Except.error ()),
   (str "c.pdf", Except.ok (str "Nome: Carla"))]

/-!
## Supporting lemmas about the string primitives
-/

theorem isPrefixOf_iff_ex (a : Str) : ∀ s : Str, a.isPrefixOf s = true ↔ ∃ r, s = a ++ r := by
  induction a with
  | nil => intro s; simp [List.isPrefixOf]
  | cons c a ih =>
    intro s
    cases s with
    | nil =>
      simp only [List.isPrefixOf, List.cons_append]
      constructor
      · intro h; cases h
      · rintro ⟨r, hr⟩; cases hr
    | cons d s =>
      simp only [List.isPrefixOf, Bool.and_eq_true, beq_iff_eq, ih s, List.cons_append,
        List.cons.injEq]
      constructor
      · rintro ⟨hcd, r, hr⟩; exact ⟨r, hcd.symm, hr⟩
      · rintro ⟨r, hdc, hr⟩; exact ⟨hdc.symm, r, hr⟩

theorem pyIn_iff (sub s : Str) : pyIn sub s = true ↔ ∃ l r, s = l ++ sub ++ r := by
  induction s with
  | nil =>
    simp only [pyIn, List.isEmpty_iff]
    constructor
    · rintro rfl; exact ⟨[], [], rfl⟩
    · rintro ⟨l, r, hr⟩
      rcases List.append_eq_nil.1 (List.append_eq_nil.1 hr.symm).1 with ⟨-, h2⟩
      exact h2
  | cons c s ih =>
    simp only [pyIn, Bool.or_eq_true, ih, isPrefixOf_iff_ex]
    constructor
    · rintro (⟨r, hr⟩ | ⟨l, r, hr⟩)
      · exact ⟨[], r, by simpa using hr⟩
      · exact ⟨c :: l, r, by simp [hr]⟩
    · rintro ⟨l, r, hr⟩
      cases l with
      | nil => exact Or.inl ⟨r, by simpa using hr⟩
      | cons x l =>
        rw [List.cons_append, List.cons_append, List.cons.injEq] at hr
        exact Or.inr ⟨l, r, by simp [hr.2]⟩

theorem pyIn_nil_false (sub : Str) (h : sub ≠ []) : pyIn sub [] = false := by
  simp [pyIn, List.isEmpty_iff, h]

/-- An occurrence inside a contiguous segment is an occurrence in the whole. -/
theorem pyIn_of_seg (sub t s : Str) (a b : Str) (hs : s = a ++ t ++ b)
    (h : pyIn sub t = true) : pyIn sub s = true := by
  obtain ⟨l, r, hr⟩ := (pyIn_iff sub t).1 h
  exact (pyIn_iff sub s).2 ⟨a ++ l, r ++ b, by rw [hs, hr]; simp⟩

theorem dropWhile_seg (p : Char → Bool) (s : Str) : ∃ t, s = t ++ s.dropWhile p := by
  induction s with
  | nil => exact ⟨[], rfl⟩
  | cons c s ih =>
    by_cases h : p c
    · obtain ⟨t, ht⟩ := ih
      refine ⟨c :: t, ?_⟩
      rw [List.dropWhile_cons, if_pos h, List.cons_append]
      exact congrArg (c :: ·) ht
    · exact ⟨[], by rw [List.dropWhile_cons, if_neg h, List.nil_append]⟩

theorem pyLStrip_seg (s : Str) : ∃ t, s = t ++ pyLStrip s := dropWhile_seg isPySpace s

theorem pyRStrip_seg (s : Str) : ∃ t, s = pyRStrip s ++ t := by
  obtain ⟨t, ht⟩ := dropWhile_seg isPySpace s.reverse
  refine ⟨t.reverse, ?_⟩
  have h2 := congrArg List.reverse ht
  simpa [pyRStrip] using h2

theorem pyStrip_seg (s : Str) : ∃ l r, s = l ++ pyStrip s ++ r := by
  obtain ⟨l, hl⟩ := pyLStrip_seg s
  obtain ⟨r, hr⟩ := pyRStrip_seg (pyLStrip s)
  refine ⟨l, r, ?_⟩
  conv_lhs => rw [hl, hr]
  simp [pyStrip]

theorem pyStrip_length_le (s : Str) : (pyStrip s).length ≤ s.length := by
  obtain ⟨l, r, h⟩ := pyStrip_seg s
  conv_rhs => rw [h]
  simp
  omega

theorem pyIn_strip_false (sep s : Str) (h : pyIn sep s = false) :
    pyIn sep (pyStrip s) = false := by
  by_contra hc
  rw [Bool.not_eq_false] at hc
  obtain ⟨a, b, hs⟩ := pyStrip_seg s
  rw [pyIn_of_seg sep (pyStrip s) s a b hs hc] at h
  cases h

theorem pyLStrip_idem (s : Str) : pyLStrip (pyLStrip s) = pyLStrip s :=
  List.dropWhile_idempotent _ _

theorem pyRStrip_idem (s : Str) : pyRStrip (pyRStrip s) = pyRStrip s := by
  simp [pyRStrip, List.dropWhile_idempotent]

theorem dropWhile_length_le (p : Char → Bool) (s : Str) :
    (s.dropWhile p).length ≤ s.length := by
  obtain ⟨t, ht⟩ := dropWhile_seg p s
  conv_rhs => rw [ht]
  simp

theorem pyLStrip_of_head (c : Char) (w : Str) (h : isPySpace c = false) :
    pyLStrip (c :: w) = c :: w := by
  simp [pyLStrip, List.dropWhile_cons, h]

/-- If left-stripping fixes `u`, it also fixes every right-strip of `u`
(the first character survives unchanged). -/
theorem pyLStrip_pyRStrip (u : Str) (hu : pyLStrip u = u) :
    pyLStrip (pyRStrip u) = pyRStrip u := by
  cases hr : pyRStrip u with
  | nil => rfl
  | cons c w =>
    obtain ⟨t, ht⟩ := pyRStrip_seg u
    rw [hr] at ht
    by_cases hc : isPySpace c
    · exfalso
      rw [ht] at hu
      rw [List.cons_append] at hu
      unfold pyLStrip at hu
      rw [List.dropWhile_cons, if_pos hc] at hu
      have hle := dropWhile_length_le isPySpace (w ++ t)
      rw [hu] at hle
      simp at hle
    · exact pyLStrip_of_head c w (by simpa using hc)

theorem pyStrip_idem (s : Str) : pyStrip (pyStrip s) = pyStrip s := by
  have h1 : pyLStrip (pyStrip s) = pyStrip s :=
    pyLStrip_pyRStrip (pyLStrip s) (pyLStrip_idem s)
  show pyRStrip (pyLStrip (pyStrip s)) = pyStrip s
  rw [h1]
  exact pyRStrip_idem (pyLStrip s)

theorem pyReplaceFuel_not_in (old new : Str) :
    ∀ (fuel : Nat) (s : Str), pyIn old s = false → pyReplaceFuel old new fuel s = s := by
  intro fuel
  induction fuel with
  | zero => intro s _; cases s <;> rfl
  | succ fuel ih =>
    intro s h
    cases s with
    | nil => rfl
    | cons c s =>
      rw [pyIn, Bool.or_eq_false_iff] at h
      rw [pyReplaceFuel, if_neg (by simp [h.1]), ih s h.2]

theorem pyReplace_not_in (old new s : Str) (h : pyIn old s = false) :
    pyReplace old new s = s :=
  pyReplaceFuel_not_in old new s.length s h

theorem pyReplaceFuel_length_le (old : Str) :
    ∀ (fuel : Nat) (s : Str), (pyReplaceFuel old [] fuel s).length ≤ s.length := by
  intro fuel
  induction fuel with
  | zero => intro s; cases s <;> simp [pyReplaceFuel]
  | succ fuel ih =>
    intro s
    cases s with
    | nil => simp [pyReplaceFuel]
    | cons c s =>
      rw [pyReplaceFuel]
      by_cases hp : old.isPrefixOf (c :: s) = true
      · rw [if_pos hp, List.nil_append]
        calc (pyReplaceFuel old [] fuel (s.drop (old.length - 1))).length
            ≤ (s.drop (old.length - 1)).length := ih _
          _ ≤ s.length := by simp
          _ ≤ (c :: s).length := by simp
      · rw [if_neg hp, List.length_cons, List.length_cons]
        exact Nat.succ_le_succ (ih s)

theorem pyReplaceFuel_length_lt (old : Str) (hold : old ≠ []) :
    ∀ (fuel : Nat) (s : Str), s.length ≤ fuel → pyIn old s = true →
      (pyReplaceFuel old [] fuel s).length < s.length := by
  intro fuel
  induction fuel with
  | zero =>
    intro s hf h
    rw [List.length_eq_zero.1 (Nat.le_zero.1 hf)] at h
    rw [pyIn_nil_false old hold] at h
    cases h
  | succ fuel ih =>
    intro s hf h
    cases s with
    | nil => rw [pyIn_nil_false old hold] at h; cases h
    | cons c s =>
      rw [pyReplaceFuel]
      by_cases hp : old.isPrefixOf (c :: s) = true
      · rw [if_pos hp, List.nil_append]
        calc (pyReplaceFuel old [] fuel (s.drop (old.length - 1))).length
            ≤ (s.drop (old.length - 1)).length := pyReplaceFuel_length_le old fuel _
          _ ≤ s.length := by simp
          _ < (c :: s).length := by simp
      · rw [pyIn, Bool.or_eq_true] at h
        rcases h with h | h
        · rw [h] at hp; cases hp rfl
        · rw [if_neg hp, List.length_cons, List.length_cons]
          have hfs : s.length ≤ fuel := Nat.le_of_succ_le_succ (by simpa using hf)
          exact Nat.succ_lt_succ (ih s hfs h)

theorem pyReplace_length_lt (old s : Str) (hold : old ≠ []) (h : pyIn old s = true) :
    (pyReplace old [] s).length < s.length :=
  pyReplaceFuel_length_lt old hold s.length s (Nat.le_refl _) h

theorem pyBeforeFirst_seg (sep : Str) : ∀ s : Str, ∃ r, s = pyBeforeFirst sep s ++ r := by
  intro s
  induction s with
  | nil => exact ⟨[], rfl⟩
  | cons c s ih =>
    by_cases hp : sep.isPrefixOf (c :: s) = true
    · exact ⟨c :: s, by rw [pyBeforeFirst, if_pos hp, List.nil_append]⟩
    · obtain ⟨r, hr⟩ := ih
      refine ⟨r, ?_⟩
      rw [pyBeforeFirst, if_neg hp, List.cons_append]
      exact congrArg (c :: ·) hr

theorem pyBeforeFirst_no_sep (sep : Str) (hsep : sep ≠ []) :
    ∀ s : Str, pyIn sep (pyBeforeFirst sep s) = false := by
  intro s
  induction s with
  | nil => exact pyIn_nil_false sep hsep
  | cons c s ih =>
    by_cases hp : sep.isPrefixOf (c :: s) = true
    · rw [pyBeforeFirst, if_pos hp]
      exact pyIn_nil_false sep hsep
    · rw [pyBeforeFirst, if_neg hp, pyIn, Bool.or_eq_false_iff]
      refine ⟨?_, ih⟩
      by_contra hc
      rw [Bool.not_eq_false, isPrefixOf_iff_ex] at hc
      obtain ⟨r, hr⟩ := hc
      obtain ⟨t, ht⟩ := pyBeforeFirst_seg sep s
      apply hp
      rw [isPrefixOf_iff_ex]
      refine ⟨r ++ t, ?_⟩
      conv_lhs => rw [ht]
      rw [← List.cons_append, hr]
      simp

theorem pyBeforeFirst_length_lt (sep : Str) (hsep : sep ≠ []) :
    ∀ s : Str, pyIn sep s = true → (pyBeforeFirst sep s).length < s.length := by
  intro s
  induction s with
  | nil => intro h; rw [pyIn_nil_false sep hsep] at h; cases h
  | cons c s ih =>
    intro h
    by_cases hp : sep.isPrefixOf (c :: s) = true
    · rw [pyBeforeFirst, if_pos hp]
      simp
    · rw [pyIn, Bool.or_eq_true] at h
      rcases h with h | h
      · rw [h] at hp; cases hp rfl
      · rw [pyBeforeFirst, if_neg hp, List.length_cons, List.length_cons]
        exact Nat.succ_lt_succ (ih h)

/-- Dropping a `p`-run from the front of `l ++ (c :: m) ++ r` with `c` not
satisfying `p` never eats into `c :: m`. -/
theorem dropWhile_keep (p : Char → Bool) (m : Str) (c : Char) (hm : p c = false) :
    ∀ (l r : Str), ∃ l2, (l ++ (c :: m) ++ r).dropWhile p = l2 ++ (c :: m) ++ r := by
  intro l r
  induction l with
  | nil => exact ⟨[], by simp [List.dropWhile_cons, hm]⟩
  | cons x l ih =>
    by_cases hx : p x
    · obtain ⟨l2, hl2⟩ := ih
      refine ⟨l2, ?_⟩
      rw [List.cons_append, List.cons_append, List.dropWhile_cons, if_pos hx]
      simpa using hl2
    · exact ⟨x :: l, by rw [List.cons_append, List.cons_append, List.dropWhile_cons, if_neg hx]⟩

/-- An occurrence of `"Base:"` (whose first and last characters are not
whitespace) survives `strip`. -/
theorem pyIn_base_strip (s : Str) (h : pyIn baseTok s = true) :
    pyIn baseTok (pyStrip s) = true := by
  obtain ⟨l, r, hs⟩ := (pyIn_iff baseTok s).1 h
  have hbase : baseTok = 'B' :: str "ase:" := by decide
  have hB : isPySpace 'B' = false := by decide
  obtain ⟨l2, hl2⟩ : ∃ l2, pyLStrip s = l2 ++ baseTok ++ r := by
    obtain ⟨l2, hl2⟩ := dropWhile_keep isPySpace (str "ase:") 'B' hB l r
    refine ⟨l2, ?_⟩
    rw [pyLStrip, hs, hbase]
    exact hl2
  have hrev : (pyLStrip s).reverse = r.reverse ++ (':' :: str "esaB") ++ l2.reverse := by
    rw [hl2]
    have : baseTok.reverse = ':' :: str "esaB" := by decide
    simp [← this]
  have hcolon : isPySpace ':' = false := by decide
  obtain ⟨t2, ht2⟩ := dropWhile_keep isPySpace (str "esaB") ':' hcolon r.reverse l2.reverse
  rw [← hrev] at ht2
  refine (pyIn_iff baseTok (pyStrip s)).2 ⟨l2, t2.reverse, ?_⟩
  show pyRStrip (pyLStrip s) = l2 ++ baseTok ++ t2.reverse
  rw [pyRStrip, ht2]
  have hb2 : (':' :: str "esaB").reverse = baseTok := by decide
  simp [← hb2]

theorem clean_value_nil : clean_value [] = [] := rfl

theorem clean_value_eq_of_base (w : Str) (hw : w ≠ [])
    (hb : pyIn baseTok (pyStrip (pyReplace rsTok [] w)) = true) :
    clean_value w = pyStrip (pyBeforeFirst baseTok (pyStrip (pyReplace rsTok [] w))) := by
  rw [clean_value, if_neg hw]
  simp only [hb, if_true]

theorem clean_value_eq_of_no_base (w : Str) (hw : w ≠ [])
    (hb : pyIn baseTok (pyStrip (pyReplace rsTok [] w)) = false) :
    clean_value w = pyStrip (pyReplace rsTok [] w) := by
  rw [clean_value, if_neg hw]
  simp only [hb, Bool.false_eq_true, if_false]

theorem clean_value_stripped (v : Str) : pyStrip (clean_value v) = clean_value v := by
  by_cases hv : v = []
  · rw [hv, clean_value_nil]; rfl
  · by_cases hb : pyIn baseTok (pyStrip (pyReplace rsTok [] v)) = true
    · rw [clean_value_eq_of_base v hv hb]; exact pyStrip_idem _
    · rw [clean_value_eq_of_no_base v hv (Bool.not_eq_true _ ▸ hb)]
      exact pyStrip_idem _

theorem clean_value_no_base (v : Str) : pyIn baseTok (clean_value v) = false := by
  by_cases hv : v = []
  · rw [hv, clean_value_nil]; exact pyIn_nil_false baseTok (by decide)
  · by_cases hb : pyIn baseTok (pyStrip (pyReplace rsTok [] v)) = true
    · rw [clean_value_eq_of_base v hv hb]
      exact pyIn_strip_false _ _ (pyBeforeFirst_no_sep baseTok (by decide) _)
    · rw [clean_value_eq_of_no_base v hv (Bool.not_eq_true _ ▸ hb)]
      exact Bool.not_eq_true _ ▸ hb

theorem clean_value_length_lt (v : Str)
    (hv : pyIn rsTok v = true ∨ pyIn baseTok v = true) :
    (clean_value v).length < v.length := by
  have hvne : v ≠ [] := by
    rintro rfl
    rcases hv with h | h
    · rw [pyIn_nil_false rsTok (by decide)] at h; cases h
    · rw [pyIn_nil_false baseTok (by decide)] at h; cases h
  by_cases hrs : pyIn rsTok v = true
  · have h1 : (pyReplace rsTok [] v).length < v.length :=
      pyReplace_length_lt rsTok v (by decide) hrs
    by_cases hb : pyIn baseTok (pyStrip (pyReplace rsTok [] v)) = true
    · rw [clean_value_eq_of_base v hvne hb]
      calc (pyStrip (pyBeforeFirst baseTok (pyStrip (pyReplace rsTok [] v)))).length
          ≤ (pyBeforeFirst baseTok (pyStrip (pyReplace rsTok [] v))).length :=
            pyStrip_length_le _
        _ < (pyStrip (pyReplace rsTok [] v)).length :=
            pyBeforeFirst_length_lt baseTok (by decide) _ hb
        _ ≤ (pyReplace rsTok [] v).length := pyStrip_length_le _
        _ < v.length := h1
    · rw [clean_value_eq_of_no_base v hvne (Bool.not_eq_true _ ▸ hb)]
      calc (pyStrip (pyReplace rsTok [] v)).length
          ≤ (pyReplace rsTok [] v).length := pyStrip_length_le _
        _ < v.length := h1
  · have hbv : pyIn baseTok v = true := hv.resolve_left hrs
    have h1 : pyReplace rsTok [] v = v :=
      pyReplace_not_in rsTok [] v (Bool.not_eq_true _ ▸ hrs)
    have hb : pyIn baseTok (pyStrip (pyReplace rsTok [] v)) = true := by
      rw [h1]; exact pyIn_base_strip v hbv
    rw [clean_value_eq_of_base v hvne hb, h1]
    calc (pyStrip (pyBeforeFirst baseTok (pyStrip v))).length
        ≤ (pyBeforeFirst baseTok (pyStrip v)).length := pyStrip_length_le _
      _ < (pyStrip v).length := pyBeforeFirst_length_lt baseTok (by decide) _ (h1 ▸ hb)
      _ ≤ v.length := pyStrip_length_le _

theorem clean_value_ne (v : Str)
    (hv : pyIn rsTok v = true ∨ pyIn baseTok v = true) : clean_value v ≠ v := by
  intro he
  have := clean_value_length_lt v hv
  rw [he] at this
  exact Nat.lt_irrefl _ this

/-!
## Supporting lemmas about the aggregator
-/

theorem dictSet_keys (key v : Str) : ∀ (rec : Record) (k : Str),
    k ∈ (dictSet key v rec).map Prod.fst ↔ k ∈ rec.map Prod.fst ∨ k = key := by
  intro rec
  induction rec with
  | nil => intro k; simp [dictSet]
  | cons kv rec ih =>
    intro k
    by_cases h : kv.1 = key
    · rw [dictSet, if_pos h]
      simp only [List.map_cons, List.mem_cons, h]
      tauto
    · rw [dictSet, if_neg h]
      simp only [List.map_cons, List.mem_cons, ih]
      tauto

theorem foldl_dictSet_keys (text : Str) : ∀ (fs : List Str) (rec : Record) (k : Str),
    k ∈ ((fs.foldl (fun rec f => dictSet f (renderValue (find_field_value text f)) rec)
        rec).map Prod.fst)
      ↔ k ∈ rec.map Prod.fst ∨ k ∈ fs := by
  intro fs
  induction fs with
  | nil => intro rec k; simp
  | cons f fs ih =>
    intro rec k
    rw [List.foldl_cons, ih, dictSet_keys]
    simp only [List.mem_cons]
    tauto

theorem buildRecord_keys (text : Str) (fields : List Str) (pdf_name : Str) (k : Str) :
    k ∈ (buildRecord text fields pdf_name).map Prod.fst ↔ k = archivoKey ∨ k ∈ fields := by
  rw [buildRecord, foldl_dictSet_keys]
  simp

theorem process_foldl (fields : List Str) :
    ∀ (l : List (Str × Except Unit Str)) (rs : List Record) (ls : List LogMsg),
      l.foldl (processStep fields) (rs, ls)
        = (rs ++ (l.map (fun d => (process_one fields d).1)).flatten,
           ls ++ (l.map (fun d => (process_one fields d).2)).flatten) := by
  intro l
  induction l with
  | nil => intro rs ls; simp
  | cons d l ih =>
    intro rs ls
    rw [List.foldl_cons]
    show l.foldl (processStep fields)
        (rs ++ (process_one fields d).1, ls ++ (process_one fields d).2) = _
    rw [ih]
    simp

/-- The records produced by the document loop: one record per document with
nonempty extracted text, in input order, none for the others. -/
theorem records_eq (fields : List Str) : ∀ l : List (Str × Except Unit Str),
    (l.map (fun d => (process_one fields d).1)).flatten
      = (l.filter (fun d => !(extract_text_from_pdf d.1 d.2).1.isEmpty)).map
          (fun d => buildRecord (extract_text_from_pdf d.1 d.2).1 fields d.1) := by
  intro l
  induction l with
  | nil => rfl
  | cons d l ih =>
    by_cases h : (extract_text_from_pdf d.1 d.2).1 = []
    · rw [List.map_cons, List.flatten_cons, ih]
      have h1 : (process_one fields d).1 = [] := by
        rw [process_one]
        simp [h]
      rw [h1, List.nil_append, List.filter_cons]
      simp [h]
    · rw [List.map_cons, List.flatten_cons, ih]
      have h1 : (process_one fields d).1
          = [buildRecord (extract_text_from_pdf d.1 d.2).1 fields d.1] := by
        rw [process_one]
        simp [h]
      rw [h1, List.filter_cons]
      simp [h]

/-- The ResultSet of a run over an existing source folder: exactly one
record, built by `buildRecord`, per filtered document whose extracted text
is nonempty, in input order. -/
theorem process_pdfs_records (docs : List (Str × Except Unit Str)) (fields : List Str) :
    (process_pdfs (some docs) fields).1
      = ((docs.filter (fun d => isPdfName d.1)).filter
          (fun d => !(extract_text_from_pdf d.1 d.2).1.isEmpty)).map
          (fun d => buildRecord (extract_text_from_pdf d.1 d.2).1 fields d.1) := by
  by_cases h : (docs.filter (fun d => isPdfName d.1)).isEmpty = true
  · have hnil : docs.filter (fun d => isPdfName d.1) = [] := List.isEmpty_iff.1 h
    simp only [process_pdfs, hnil]
    rfl
  · simp only [process_pdfs]
    rw [if_neg h, process_foldl, records_eq, List.nil_append]

/-- Every filtered document whose read raised an exception contributes an
error-level log message to the run. -/
theorem process_pdfs_err_log (docs : List (Str × Except Unit Str)) (fields : List Str)
    (d : Str × Except Unit Str) (hd : d ∈ docs.filter (fun d => isPdfName d.1))
    (herr : d.2 = Except.error ()) :
    (Level.error, readErrMsg d.1) ∈ (process_pdfs (some docs) fields).2 := by
  have hne : ¬(docs.filter (fun d => isPdfName d.1)).isEmpty = true := by
    intro h
    rw [List.isEmpty_iff.1 h] at hd
    cases hd
  simp only [process_pdfs]
  rw [if_neg hne, process_foldl, List.nil_append]
  apply List.mem_flatten.2
  refine ⟨(process_one fields d).2, List.mem_map_of_mem _ hd, ?_⟩
  rw [process_one]
  simp [extract_text_from_pdf, herr]

/-!
## The claims
-/

/-- Claim C1, counterexample: the claim quantifies over any document text
containing the substring, but `re.search` returns the leftmost match, so a
text with an earlier match of the currency pattern yields that earlier
value (`"9"`), not `"1.234,56"`. -/
theorem claim1_counterexample :
    pyIn valorSubstring valorCxText = true ∧
    find_field_value valorCxText valorKey = some (str "9") ∧
    ¬find_field_value valorCxText valorKey = some (str "1.234,56") := by
  refine ⟨by decide, by decide, by decide⟩

/-- Claim C1, amended: on the document text given in the specification (or
any text whose first match of the currency pattern is this occurrence), the
Field Matcher returns `"1.234,56"` — the `R$` marker is stripped and
`Base:` with everything after it is removed. -/
theorem claim1_amended :
    find_field_value valorSubstring valorKey = some (str "1.234,56") := by decide

/-- Claim C2, counterexample: `clean_value` is not idempotent — removing
the non-overlapping occurrences of `"R$"` can create a new occurrence
(`"RR$$"` becomes `"R$"`, which a second application erases). -/
theorem claim2_counterexample :
    ¬clean_value (clean_value (str "RR$$")) = clean_value (str "RR$$") := by decide

/-- Claim C2, amended: `clean_value` is idempotent at every value whose
cleanup result contains no `"R$"` (the only way a second application can
differ). -/
theorem claim2_amended (v : Str) (h : pyIn rsTok (clean_value v) = false) :
    clean_value (clean_value v) = clean_value v := by
  by_cases hz : clean_value v = []
  · rw [hz]; rfl
  · have h1 : pyReplace rsTok [] (clean_value v) = clean_value v :=
      pyReplace_not_in rsTok [] (clean_value v) h
    have h3 : pyIn baseTok (pyStrip (pyReplace rsTok [] (clean_value v))) = false := by
      rw [h1, clean_value_stripped]
      exact clean_value_no_base v
    rw [clean_value_eq_of_no_base (clean_value v) hz h3, h1]
    exact clean_value_stripped v

/-- Witness for the amended C2 at `v = "R$ 7 Base: 9"`. -/
theorem claim2_witness :
    pyIn rsTok (clean_value (str "R$ 7 Base: 9")) = false ∧
    clean_value (clean_value (str "R$ 7 Base: 9")) = clean_value (str "R$ 7 Base: 9") :=
  ⟨by decide, claim2_amended (str "R$ 7 Base: 9") (by decide)⟩

/-- Claim C3: the fallback pattern is built by interpolating the field name
unescaped into regex source; for the field name `"("` the resulting pattern
has unbalanced parentheses, which CPython's `re.compile` rejects by raising
`re.error` — so `find_field_value` raises instead of returning a value or
the NotFound sentinel, while a metacharacter-free name such as
`"CustomField"` yields a well-formed pattern. -/
theorem claim3_fallback_unbalanced :
    balancedParens (fallbackPatternSrc (str "(")) = false ∧
    balancedParens (fallbackPatternSrc (str "CustomField")) = true := by
  refine ⟨by decide, by decide⟩

/-- Claim C4: every record in the ResultSet has exactly the key set
{identifier column} ∪ {configured field names}, however many fields
actually matched. -/
theorem claim4_rectangular (source : Option (List (Str × Except Unit Str)))
    (fields : List Str) (r : Record) (hr : r ∈ (process_pdfs source fields).1) (k : Str) :
    k ∈ r.map Prod.fst ↔ (k = archivoKey ∨ k ∈ fields) := by
  rcases source with _ | docs
  · simp [process_pdfs] at hr
  · rw [process_pdfs_records] at hr
    obtain ⟨d, _, rfl⟩ := List.mem_map.1 hr
    exact buildRecord_keys _ _ _ _

/-- Witness for C4 on a one-document batch with one configured field. -/
theorem claim4_witness :
    ([(archivoKey, str "a.pdf"), (nomeKey, str "Ana")] : Record)
        ∈ (process_pdfs (some [(str "a.pdf", Except.ok (str "Nome: Ana"))]) [nomeKey]).1 ∧
    ((nomeKey ∈ ([(archivoKey, str "a.pdf"), (nomeKey, str "Ana")] : Record).map Prod.fst)
      ↔ (nomeKey = archivoKey ∨ nomeKey ∈ [nomeKey])) :=
  ⟨by decide,
    claim4_rectangular (some [(str "a.pdf", Except.ok (str "Nome: Ana"))]) [nomeKey]
      [(archivoKey, str "a.pdf"), (nomeKey, str "Ana")] (by decide) nomeKey⟩

/-- Claim C5, counterexample: a document read successfully but with empty
extracted text is skipped, yet no warning- or error-level message is
logged for it — the claim's "a failure is reported via logging" fails in
the empty-text case. -/
theorem claim5_counterexample :
    (process_pdfs (some [(str "a.pdf", Except.ok [])]) []).1 = [] ∧
    ∀ l ∈ (process_pdfs (some [(str "a.pdf", Except.ok [])]) []).2,
      ¬l.1 = Level.warning ∧ ¬l.1 = Level.error := by
  refine ⟨by decide, by decide⟩

/-- Claim C5, amended: a document whose extraction fails or yields empty
text is skipped entirely (the ResultSet holds exactly one record per
surviving document, in order — so 3 documents with one failure give 2
records), processing continues, and when extraction raises an exception an
error is logged; a document with empty extracted text is skipped without a
dedicated failure message. -/
theorem claim5_amended (docs : List (Str × Except Unit Str)) (fields : List Str) :
    (process_pdfs (some docs) fields).1
      = ((docs.filter (fun d => isPdfName d.1)).filter
          (fun d => !(extract_text_from_pdf d.1 d.2).1.isEmpty)).map
          (fun d => buildRecord (extract_text_from_pdf d.1 d.2).1 fields d.1) ∧
    ∀ d ∈ docs.filter (fun d => isPdfName d.1), d.2 = Except.error () →
      (Level.error, readErrMsg d.1) ∈ (process_pdfs (some docs) fields).2 :=
  ⟨process_pdfs_records docs fields,
    fun d hd herr => process_pdfs_err_log docs fields d hd herr⟩

/-- Witness for the amended C5: three documents, one failing, give exactly
two records and a logged error for the failing one. -/
theorem claim5_witness :
    (process_pdfs (some threeDocs) [nomeKey]).1.length = 2 ∧
    (Level.error, readErrMsg (str "b.pdf")) ∈ (process_pdfs (some threeDocs) [nomeKey]).2 := by
  constructor
  · rw [(claim5_amended threeDocs [nomeKey]).1]
    rfl
  · exact (claim5_amended threeDocs [nomeKey]).2 (str "b.pdf", Except.error ())
      (by decide) rfl

/-- Claim C6, counterexample: the fallback pattern captures the remainder
of the line, so a text containing `"CustomField: XYZ"` with further text on
the same line yields that longer remainder, not `"XYZ"`. -/
theorem claim6_counterexample :
    pyIn (str "CustomField: XYZ") (str "CustomField: XYZ extra") = true ∧
    find_field_value (str "CustomField: XYZ extra") (str "CustomField")
      = some (str "XYZ extra") ∧
    ¬find_field_value (str "CustomField: XYZ extra") (str "CustomField")
      = some (str "XYZ") := by
  refine ⟨by decide, by decide, by decide⟩

/-- Claim C6, amended: an unknown field name is matched by the generic
fallback pattern (name, separator, remainder of the line); when
`"CustomField: XYZ"` extends to the end of its line, the extracted value is
`"XYZ"`. -/
theorem claim6_amended :
    find_field_value (str "CustomField: XYZ") (str "CustomField") = some (str "XYZ") ∧
    find_field_value (str "Header\nCustomField: XYZ\nMore: 1") (str "CustomField")
      = some (str "XYZ") := by
  refine ⟨by decide, by decide⟩

/-- Claim C7, counterexample: both texts contain the same value preceded by
an accepted label variant, yet the leftmost match wins, so the second text
(with an earlier `"PIS: 999"`) extracts `"999"` instead. -/
theorem claim7_counterexample :
    pyIn pisText1 pisText1 = true ∧
    pyIn pisText2 pisCxText = true ∧
    find_field_value pisText1 pisKey = some pisVal ∧
    find_field_value pisCxText pisKey = some (str "999") ∧
    ¬find_field_value pisCxText pisKey = find_field_value pisText1 pisKey := by
  refine ⟨by decide, by decide, by decide, by decide, by decide⟩

/-- Claim C7, amended: when the label-value occurrence is the first match
of the identifier pattern, both accepted label variants extract the same
value. -/
theorem claim7_amended :
    find_field_value pisText2 pisKey = find_field_value pisText1 pisKey ∧
    find_field_value pisText2 pisKey = some pisVal := by
  refine ⟨by decide, by decide⟩

/-- Claim C8: a missing source folder logs an error and a folder without
PDF files logs a warning; both terminate with an empty ResultSet, and the
sink writes no file for an empty ResultSet. -/
theorem claim8_empty_run (fields : List Str) (docs : List (Str × Except Unit Str))
    (h : (docs.filter (fun d => isPdfName d.1)).isEmpty = true) :
    process_pdfs none fields = ([], [(Level.error, srcMissingMsg)]) ∧
    process_pdfs (some docs) fields = ([], [(Level.warning, noPdfMsg)]) ∧
    save_results_to_csv [] = none := by
  refine ⟨rfl, ?_, rfl⟩
  simp only [process_pdfs]
  rw [if_pos h]

/-- Witness for C8 on a folder containing only a non-PDF file. -/
theorem claim8_witness :
    ((([(str "x.txt", Except.ok (str "y"))] : List (Str × Except Unit Str)).filter
        (fun d => isPdfName d.1)).isEmpty = true) ∧
    (process_pdfs none [] = ([], [(Level.error, srcMissingMsg)]) ∧
     process_pdfs (some [(str "x.txt", Except.ok (str "y"))]) []
        = ([], [(Level.warning, noPdfMsg)]) ∧
     save_results_to_csv [] = none) :=
  ⟨by decide, claim8_empty_run [] [(str "x.txt", Except.ok (str "y"))] (by decide)⟩

/-- Claim C9, counterexample: a found-but-empty value (here, field `Nome`
matching a value that cleans to the empty string) is rendered exactly like
a not-found field — the truthiness test on line 119 conflates them, so the
two outcomes are rendered identically. -/
theorem claim9_counterexample :
    find_field_value (str "Nome: R$") nomeKey = some (str "") ∧
    find_field_value (str "Nome: R$") (str "Missing") = none ∧
    renderValue (find_field_value (str "Nome: R$") nomeKey)
      = renderValue (find_field_value (str "Nome: R$") (str "Missing")) := by
  refine ⟨by decide, by decide, by decide⟩

/-- Claim C9, amended: when the matcher finds no match the caller renders
the fixed placeholder `'No encontrado'` (never a blank or an absent key);
however a found-but-empty value is rendered as the same placeholder, so the
two outcomes are not distinguishable in the output. -/
theorem claim9_amended (text field : Str) (h : find_field_value text field = none) :
    renderValue (find_field_value text field) = noEncontrado ∧
    renderValue (some []) = noEncontrado := by
  rw [h]
  exact ⟨rfl, rfl⟩

/-- Witness for the amended C9 on an empty text. -/
theorem claim9_witness :
    find_field_value [] nomeKey = none ∧
    (renderValue (find_field_value [] nomeKey) = noEncontrado ∧
     renderValue (some []) = noEncontrado) :=
  ⟨by decide, claim9_amended [] nomeKey (by decide)⟩

/-- Claim C10: for a nonempty ResultSet the sink writes one row per record
with every value (the identifier column and the placeholder included)
passed through `clean_value` again; a value containing `"R$"` or `"Base:"`
is therefore written in altered form, differing from the stored value. -/
theorem claim10_serial_cleanup (results : List Record) (hne : ¬results = [])
    (v : Str) (hv : pyIn rsTok v = true ∨ pyIn baseTok v = true) :
    save_results_to_csv results
        = some (sortStrs ((results.flatMap (fun r => r.map Prod.fst)).dedup),
            results.map cleanRecord) ∧
    ¬clean_value v = v :=
  ⟨by rw [save_results_to_csv, if_neg hne], clean_value_ne v hv⟩

/-- Witness for C10: a record whose identifier contains both tokens is
written with the identifier altered. -/
theorem claim10_witness :
    ¬([[(archivoKey, str "R$ informe Base: 1.pdf")]] : List Record) = [] ∧
    (pyIn rsTok (str "R$ informe Base: 1.pdf") = true ∨
      pyIn baseTok (str "R$ informe Base: 1.pdf") = true) ∧
    (save_results_to_csv [[(archivoKey, str "R$ informe Base: 1.pdf")]]
        = some (sortStrs (([[(archivoKey, str "R$ informe Base: 1.pdf")]].flatMap
            (fun r => r.map Prod.fst)).dedup),
          [[(archivoKey, str "R$ informe Base: 1.pdf")]].map cleanRecord) ∧
     ¬clean_value (str "R$ informe Base: 1.pdf") = str "R$ informe Base: 1.pdf") :=
  ⟨by decide, Or.inl (by decide),
    claim10_serial_cleanup [[(archivoKey, str "R$ informe Base: 1.pdf")]] (by decide)
      (str "R$ informe Base: 1.pdf") (Or.inl (by decide))⟩

end ReadPdf
